import Mathlib

/-!
Verification of the roux Reddit-client core against its specification.

The definitions below are shallow embeddings of the Rust sources:
* `EndpointBuilder` — src/client/endpoint.rs
* `ThingFullname`   — src/api/thing_fullname/mod.rs
* `Edited`          — src/api/comment/common.rs
* `UnauthedClient`  — src/client/noauth.rs
* `ClientInner`     — src/client/inner.rs (retry executor, login)
* `OAuthClient`     — src/client/oauth.rs (retry executor with 400 handling)
* `AuthedClient`    — src/client/auth.rs (re-login loop)
* `Ratelimit`       — src/client/ratelimit.rs

Machine floats (`f64`) are modelled as exact rationals, `u64`/`u32` counters
as naturals (with an explicit wrap where the source can overflow), instants
as rational seconds, and the HTTP transport as an explicit list of attempt
outcomes consumed by the retry loop.
-/

namespace Roux

/-! ### Endpoint builder (src/client/endpoint.rs) -/

structure EndpointBuilder where
  path : String
  query : List (String × String)
  withDotJson : Bool
deriving DecidableEq, Repr

def EndpointBuilder.new (path : String) : EndpointBuilder :=
  { path := path, query := [], withDotJson := true }

def EndpointBuilder.join (e other : EndpointBuilder) : EndpointBuilder :=
  { e with path := e.path ++ other.path, query := e.query ++ other.query }

def EndpointBuilder.addQuery (e : EndpointBuilder) (key value : String) : EndpointBuilder :=
  { e with query := e.query ++ [(key, value)] }

/-- `self.path.starts_with('/')` from the Rust source ('/' is ASCII, so the
byte-level check coincides with the first-character check). -/
def pathStartsWithSlash (s : String) : Bool :=
  match s.data with
  | [] => false
  | c :: _ => c = '/'

/-- `EndpointBuilder::build` from src/client/endpoint.rs. -/
def EndpointBuilder.build (e : EndpointBuilder) (baseUrl : String) : String :=
  let dotJson := if e.withDotJson then ".json" else ""
  let joined :=
    if e.path.data.isEmpty || pathStartsWithSlash e.path then
      baseUrl ++ e.path ++ "/" ++ dotJson
    else
      baseUrl ++ "/" ++ e.path ++ "/" ++ dotJson
  let joined := if 0 < e.query.length then joined ++ "?" else joined
  e.query.foldl (fun acc kv => acc ++ kv.1 ++ "=" ++ kv.2 ++ "&") joined

/-- The `k=v&` fragments of the query string, in insertion order. -/
def queryString : List (String × String) → String
  | [] => ""
  | kv :: rest => kv.1 ++ "=" ++ kv.2 ++ "&" ++ queryString rest

/-! ### Base URLs and the token endpoints (src/client/inner.rs, src/client/auth.rs) -/

/-- `ClientInner::new`: base URL choice from the config's password. -/
def baseUrlFor (passwordSet : Bool) : String :=
  if passwordSet then "https://oauth.reddit.com" else "https://www.reddit.com"

/-- `ClientInner::attempt_login`: the endpoint is `api/v1/access_token` with
`with_dot_json = false`. -/
def accessTokenEndpoint : EndpointBuilder :=
  { EndpointBuilder.new "api/v1/access_token" with withDotJson := false }

/-- The URL the token-issuance POST is sent to (`ClientInner::request` builds
the endpoint against the client's `base_url`). -/
def loginUrl (passwordSet : Bool) : String :=
  accessTokenEndpoint.build (baseUrlFor passwordSet)

/-- `AuthedClient::logout` passes an absolute URL as the endpoint path. -/
def revokeTokenEndpoint : EndpointBuilder :=
  EndpointBuilder.new "https://www.reddit.com/api/v1/revoke_token"

/-- The URL the token-revocation POST is sent to (`make_req` also builds
against the client's `base_url`). -/
def logoutUrl (passwordSet : Bool) : String :=
  revokeTokenEndpoint.build (baseUrlFor passwordSet)

/-! ### ThingFullname (src/api/thing_fullname/mod.rs)

Strings are modelled as `List Char`; Rust's byte-oriented `len()` is
recovered through the UTF-8 size of each character. -/

def utf8Len (s : List Char) : Nat :=
  (s.map Char.utf8Size).sum

/-- Rust's `str::split_once('_')`: split at the first underscore. -/
def splitOnceUnderscore : List Char → Option (List Char × List Char)
  | [] => none
  | c :: rest =>
    if c = '_' then some ([], rest)
    else
      match splitOnceUnderscore rest with
      | some (a, b) => some (c :: a, b)
      | none => none

/-- `kind.starts_with("t")`: the first byte is `t` (ASCII, hence the first
character is `t`). -/
def startsWithT : List Char → Bool
  | [] => false
  | c :: _ => c = 't'

namespace ThingFullname

/-- `ThingFullname::validate` from src/api/thing_fullname/mod.rs. -/
def validate (thingId : List Char) : Bool :=
  match splitOnceUnderscore thingId with
  | none => false
  | some (kind, _) => !(utf8Len kind != 2 || !startsWithT kind)

/-- `TryFrom<&str> for ThingFullname`. -/
def tryFrom (thingId : List Char) : Option (List Char) :=
  if validate thingId then some thingId else none

end ThingFullname

/-- The shape the specification ascribes to fullnames: the regular expression
`t[0-9]_[a-z0-9]+`.  This definition follows the spec's words, not the code;
it exists to compare the two. -/
def claimFullnamePattern (s : List Char) : Bool :=
  match s with
  | t :: d :: u :: tail =>
    t = 't' && d.isDigit && u = '_' && !tail.isEmpty &&
      tail.all fun c => c.isDigit || (decide ('a' ≤ c) && decide (c ≤ 'z'))
  | _ => false

/-! ### Edited (src/api/comment/common.rs)

JSON values carry their shape.  serde_json classifies number literals
lexically and drives a `deserialize_any` visitor accordingly: a literal with
a fraction or exponent is delivered through `visit_f64`, while an
integer-lexical literal is delivered through `visit_u64`/`visit_i64`.  The
model therefore keeps integer-delivered and float-delivered numbers as
separate constructors (`int` carries ℤ, covering both the u64 and the i64
path; `float` payloads are exact rationals). -/

inductive Json where
  | null
  | bool (b : Bool)
  | int (i : ℤ)
  | float (x : ℚ)
  | str (s : String)
  | arr (elems : List Json)
  | obj (fields : List (String × Json))

inductive Edited where
  | editedAt (timestamp : ℚ)
  | notEdited
deriving DecidableEq, Repr

/-- The `Deserialize` visitor for `Edited`: only `visit_bool` and `visit_f64`
are implemented; `false` maps to `NotEdited`, `true` is rejected,
float-delivered numbers map to `EditedAt`, and integer-delivered numbers —
like strings, null, arrays and objects — fall through to the erroring
default visitor methods (`visit_u64`/`visit_i64` return `invalid_type`). -/
def Edited.deserialize : Json → Except String Edited
  | .bool false => .ok .notEdited
  | .bool true => .error "invalid value: boolean true, expected boolean false"
  | .float x => .ok (.editedAt x)
  | .int _ => .error "invalid type: integer, expected boolean false or a float timestamp"
  | _ => .error "invalid type, expected boolean false or a float timestamp"

/-- The `Serialize` impl for `Edited`. -/
def Edited.serialize : Edited → Json
  | .editedAt f => .float f
  | .notEdited => .bool false

/-! ### Responses and transport outcomes shared by the executors -/

structure Response where
  status : Nat
  retryAfter : Option Nat
  body : String
deriving DecidableEq, Repr

/-- `Response::error_for_status_ref` fails exactly on client and server error
statuses. -/
def Response.isErrorStatus (r : Response) : Bool :=
  400 ≤ r.status && r.status ≤ 599

inductive IoErrorKind where
  | connectionAborted
  | connectionReset
  | otherKind
deriving DecidableEq, Repr

/-- A transport-level `reqwest::Error` (no response was obtained); `ioKind`
is the downcast `std::io::Error` source, when there is one. -/
structure TransportError where
  ioKind : Option IoErrorKind
deriving DecidableEq, Repr

/-- The `reqwest::Error` values the executor captures: either the
`error_for_status` error of a received response, or a transport failure. -/
inductive ReqwestError where
  | status (r : Response)
  | transport (e : TransportError)
deriving DecidableEq, Repr

/-- One round-trip through `with_ratelimits`: either a response arrived or
the transport failed. -/
inductive AttemptResult where
  | success (r : Response)
  | failure (e : TransportError)
deriving DecidableEq, Repr

/-- The taxonomized caller-facing error (`RouxErrorKind`,
src/util/error.rs); the backtrace is not modelled. -/
inductive RouxError where
  | status (r : Response)
  | network (e : ReqwestError)
  | fullNetwork (r : Response) (e : ReqwestError)
  | ratelimited (retryAfter : Option Nat)
  | redditError (body : String)
  | parse
  | auth (s : String)
  | credentialsNotSet
  | oauthClientRequired
deriving DecidableEq, Repr

/-- Result of a retry loop run against a finite trace of transport attempts.
`hung` marks a trace too short for the loop to decide. -/
inductive ExecResult (ε : Type) where
  | ok (r : Response)
  | err (e : ε)
  | hung
deriving DecidableEq, Repr

/-- `std::cmp::min(60, 2u64.pow(retries))`; the exponentiation is 64-bit. -/
def backoffSecs (retries : Nat) : Nat :=
  min 60 (2 ^ retries % 2 ^ 64)

/-! ### ClientInner executor (src/client/inner.rs) -/

namespace ClientInner

inductive RetryableExecuteError where
  | retryAfter (secs : Nat)
  | retryExponential (maxRetries : Option Nat) (lastError : ReqwestError)
  | unauthorized
  | otherResponseError (r : Response) (e : ReqwestError)
  | other (e : ReqwestError)
deriving DecidableEq, Repr

/-- `ClientInner::convert_error`: classify an error-status response.  The
status always comes from the `error_for_status` error of the response. -/
def convert_error (r : Response) : RetryableExecuteError :=
  if r.status = 429 then
    match r.retryAfter with
    | some secs => .retryAfter secs
    | none => .retryExponential none (.status r)
  else if r.status = 500 then .retryExponential (some 32) (.status r)
  else if r.status = 401 then .unauthorized
  else .otherResponseError r (.status r)

/-- `ClientInner::inner_execute`: classify one transport attempt. -/
def inner_execute (a : AttemptResult) : Except RetryableExecuteError Response :=
  match a with
  | .success r =>
    if r.isErrorStatus then .error (convert_error r) else .ok r
  | .failure e =>
    match e.ioKind with
    | some .connectionAborted => .error (.retryExponential (some 16) (.transport e))
    | some .connectionReset => .error (.retryExponential (some 16) (.transport e))
    | _ => .error (.other (.transport e))

inductive ExecuteError where
  | authorizationRequired
  | authError (s : String)
  | errorOnly (e : ReqwestError)
  | responseAndError (r : Response) (e : ReqwestError)
deriving DecidableEq, Repr

/-- `From<ExecuteError> for RouxError`. -/
def ExecuteError.toRouxError : ExecuteError → RouxError
  | .authorizationRequired => .credentialsNotSet
  | .errorOnly e => .network e
  | .authError s => .auth s
  | .responseAndError r e => .fullNetwork r e

/-- The retry loop of `ClientInner::execute`, consuming the attempt trace and
logging every sleep (in seconds). -/
def executeGo : Nat → List AttemptResult → ExecResult ExecuteError × List Nat
  | _, [] => (.hung, [])
  | retries, a :: rest =>
    match inner_execute a with
    | .ok r => (.ok r, [])
    | .error (.retryAfter secs) =>
      let next := executeGo (retries + 1) rest
      (next.1, secs :: next.2)
    | .error (.retryExponential maxRetries lastError) =>
      match maxRetries with
      | some m =>
        if m < retries + 1 then (.err (.errorOnly lastError), [])
        else
          let next := executeGo (retries + 1) rest
          (next.1, backoffSecs (retries + 1) :: next.2)
      | none =>
        let next := executeGo (retries + 1) rest
        (next.1, backoffSecs (retries + 1) :: next.2)
    | .error .unauthorized => (.err .authorizationRequired, [])
    | .error (.otherResponseError r e) => (.err (.responseAndError r e), [])
    | .error (.other e) => (.err (.errorOnly e), [])

/-- `ClientInner::execute` starts with `retries = 0`. -/
def execute (attempts : List AttemptResult) : ExecResult ExecuteError × List Nat :=
  executeGo 0 attempts

end ClientInner

/-! ### OAuthClient executor (src/client/oauth.rs) -/

namespace OAuthClient

inductive ExecuteError where
  | retryAfter (secs : Nat)
  | retryExponential (maxRetries : Option Nat) (lastError : ReqwestError)
  | badRequest (body : String)
  | otherResponseError (r : Response) (e : ReqwestError)
  | other (e : ReqwestError)
deriving DecidableEq, Repr

/-- `OAuthClient::convert_error`: like `ClientInner::convert_error` but with a
`BAD_REQUEST` arm that reads the body, and without an `UNAUTHORIZED` arm. -/
def convert_error (r : Response) : ExecuteError :=
  if r.status = 429 then
    match r.retryAfter with
    | some secs => .retryAfter secs
    | none => .retryExponential none (.status r)
  else if r.status = 400 then .badRequest r.body
  else if r.status = 500 then .retryExponential (some 32) (.status r)
  else .otherResponseError r (.status r)

/-- `OAuthClient::inner_execute`. -/
def inner_execute (a : AttemptResult) : Except ExecuteError Response :=
  match a with
  | .success r =>
    if r.isErrorStatus then .error (convert_error r) else .ok r
  | .failure e =>
    match e.ioKind with
    | some .connectionAborted => .error (.retryExponential (some 16) (.transport e))
    | some .connectionReset => .error (.retryExponential (some 16) (.transport e))
    | _ => .error (.other (.transport e))

/-- The retry loop of `OAuthClient::execute`; errors surface directly as
`RouxError`s. -/
def executeGo : Nat → List AttemptResult → ExecResult RouxError × List Nat
  | _, [] => (.hung, [])
  | retries, a :: rest =>
    match inner_execute a with
    | .ok r => (.ok r, [])
    | .error (.retryAfter secs) =>
      let next := executeGo (retries + 1) rest
      (next.1, secs :: next.2)
    | .error (.retryExponential maxRetries lastError) =>
      match maxRetries with
      | some m =>
        if m < retries + 1 then (.err (.network lastError), [])
        else
          let next := executeGo (retries + 1) rest
          (next.1, backoffSecs (retries + 1) :: next.2)
      | none =>
        let next := executeGo (retries + 1) rest
        (next.1, backoffSecs (retries + 1) :: next.2)
    | .error (.badRequest body) => (.err (.redditError body), [])
    | .error (.otherResponseError r e) => (.err (.fullNetwork r e), [])
    | .error (.other e) => (.err (.network e), [])

def execute (attempts : List AttemptResult) : ExecResult RouxError × List Nat :=
  executeGo 0 attempts

end OAuthClient

/-! ### AuthedClient re-login loop (src/client/auth.rs) -/

namespace AuthedClient

/-- `form_auth_header`. -/
def formAuthHeader (accessToken : String) : String :=
  "Bearer " ++ accessToken

/-- Outcome of `AuthedClient::execute_with_retries`, together with the final
contents of the access-token cell. -/
inductive AuthExecResult (α : Type) where
  | ok (value : α) (token : String)
  | err (e : RouxError) (token : String)
  | hung
deriving DecidableEq

/-- The loop body of `execute_with_retries`: each iteration consumes the next
outcome of `self.0.base.execute`; `loginResult` is the outcome
`self.0.base.attempt_login` would produce. -/
def executeWithRetriesGo {α : Type} (loginResult : Except ClientInner.ExecuteError String) :
    Bool → String → List (Except ClientInner.ExecuteError α) → AuthExecResult α
  | _, _, [] => .hung
  | hasRetried, token, result :: rest =>
    match result with
    | .ok v => .ok v token
    | .error .authorizationRequired =>
      if hasRetried then .err .credentialsNotSet token
      else
        match loginResult with
        | .ok newToken =>
          executeWithRetriesGo loginResult true (formAuthHeader newToken) rest
        | .error e => .err e.toRouxError token
    | .error e => .err e.toRouxError token

/-- `AuthedClient::execute_with_retries` starts with `has_retried = false`. -/
def executeWithRetries {α : Type} (loginResult : Except ClientInner.ExecuteError String)
    (token : String) (results : List (Except ClientInner.ExecuteError α)) : AuthExecResult α :=
  executeWithRetriesGo loginResult false token results

end AuthedClient

/-! ### UnauthedClient (src/client/noauth.rs) -/

inductive GetOutcome where
  | panicked (status : Nat) (body : String)
  | ok (r : Response)
deriving DecidableEq, Repr

/-- `UnauthedClient::get`, given the response the transport produced: on an
error status it reads the body and panics; otherwise it returns the
response. -/
def UnauthedClient.get (response : Response) : GetOutcome :=
  if response.isErrorStatus then .panicked response.status response.body
  else .ok response

/-! ### Ratelimit (src/client/ratelimit.rs)

`f64` values are modelled as exact rationals, `Instant`s as rational seconds,
and `Duration::from_micros(x as u64)` keeps the source's truncation to whole
microseconds. -/

structure Ratelimit where
  remaining : ℚ
  used : Nat
  nextRequest : ℚ
  nextReset : ℚ
deriving DecidableEq

/-- `Ratelimit::WINDOW`. -/
def Ratelimit.window : ℚ := 600

/-- `Ratelimit::new()` at instant `now`. -/
def Ratelimit.new (now : ℚ) : Ratelimit :=
  { remaining := 100, used := 0, nextRequest := now, nextReset := now + 600 }

/-- The free function `clamp(min, value, max)` at the bottom of
src/client/ratelimit.rs. -/
def clamp (lo value hi : ℚ) : ℚ :=
  if value < lo then lo
  else if hi < value then hi
  else value

/-- `Duration::from_micros(us_delay as u64)`: the `f64 → u64` cast truncates
(the value is non-negative after the clamp). -/
def delayMicros (secondsDelay : ℚ) : Nat :=
  (Int.toNat ⌊secondsDelay * 1000 * 1000⌋)

/-- The parsed `X-Ratelimit-*` headers: `reset` and `used` parse as `u64`,
`remaining` as `f64`. -/
structure RatelimitHeaders where
  reset : Nat
  remaining : ℚ
  used : Nat
deriving DecidableEq

/-- `Ratelimit::update` at instant `now`; `none` models a header map without
`X-Ratelimit-Remaining`. -/
def Ratelimit.update (s : Ratelimit) (now : ℚ) (headers : Option RatelimitHeaders) : Ratelimit :=
  match headers with
  | none => { s with remaining := s.remaining - 1, used := s.used + 1 }
  | some h =>
    let resetSeconds := h.reset
    let remaining := h.remaining
    let used := h.used
    let nextReset := now + (resetSeconds : ℚ)
    if remaining ≤ 0 then
      { remaining := remaining, used := used, nextRequest := nextReset, nextReset := nextReset }
    else
      let allowed := remaining + (used : ℚ)
      let averageSecondsPerRequest := Ratelimit.window / allowed
      let secondsTakenSoFar := averageSecondsPerRequest * (used : ℚ)
      let windowRemain := Ratelimit.window - secondsTakenSoFar
      let secondsDelay := clamp 0 ((resetSeconds : ℚ) - windowRemain) 10
      let nextRequest := now + (delayMicros secondsDelay : ℚ) / 1000000
      { remaining := remaining, used := used,
        nextRequest := min nextRequest nextReset, nextReset := nextReset }

/-- Iterated updates: the post-state of each call in turn, every call with
the `X-Ratelimit-Remaining` header present. -/
def Ratelimit.updateSeq (s : Ratelimit) : List (ℚ × RatelimitHeaders) → List Ratelimit
  | [] => []
  | (now, h) :: rest =>
    let s1 := s.update now (some h)
    s1 :: s1.updateSeq rest

/-- Consistency of two successive ratelimit responses: time moves forward,
both point at the same window-reset instant, both report the same total
allowance, and the later one reports strictly less remaining. -/
def consistentCalls (a b : ℚ × RatelimitHeaders) : Prop :=
  a.1 ≤ b.1 ∧
  a.1 + (a.2.reset : ℚ) = b.1 + (b.2.reset : ℚ) ∧
  a.2.remaining + (a.2.used : ℚ) = b.2.remaining + (b.2.used : ℚ) ∧
  b.2.remaining < a.2.remaining

/-! ## Helper lemmas -/

theorem isErrorStatus_iff (r : Response) :
    r.isErrorStatus = true ↔ 400 ≤ r.status ∧ r.status ≤ 599 := by
  simp [Response.isErrorStatus]

theorem clamp_nonneg (x : ℚ) : 0 ≤ clamp 0 x 10 := by
  rw [clamp]; split_ifs <;> linarith

theorem clamp_le_ten (x : ℚ) : clamp 0 x 10 ≤ 10 := by
  rw [clamp]; split_ifs <;> linarith

theorem clamp_mono {x y : ℚ} (hxy : x ≤ y) : clamp 0 x 10 ≤ clamp 0 y 10 := by
  rw [clamp, clamp]; split_ifs <;> linarith

theorem clamp_add_le (x t : ℚ) (ht : 0 ≤ t) : clamp 0 (x + t) 10 ≤ clamp 0 x 10 + t := by
  rw [clamp, clamp]; split_ifs <;> linarith

theorem delayMicros_cast (c : ℚ) (hc : 0 ≤ c) :
    ((delayMicros c : ℕ) : ℚ) = ((⌊c * 1000 * 1000⌋ : ℤ) : ℚ) := by
  have h0 : (0 : ℤ) ≤ ⌊c * 1000 * 1000⌋ := Int.floor_nonneg.mpr (by positivity)
  rw [delayMicros]
  exact_mod_cast congrArg (fun z : ℤ => (z : ℚ)) (Int.toNat_of_nonneg h0)

theorem delayMicros_div_le (c : ℚ) (hc : 0 ≤ c) : ((delayMicros c : ℕ) : ℚ) / 1000000 ≤ c := by
  rw [div_le_iff₀ (by norm_num : (0 : ℚ) < 1000000), delayMicros_cast c hc]
  calc ((⌊c * 1000 * 1000⌋ : ℤ) : ℚ) ≤ c * 1000 * 1000 := Int.floor_le _
    _ = c * 1000000 := by ring

theorem delayMicros_div_add_int (c1 c2 : ℚ) (z : ℤ) (h1 : 0 ≤ c1) (h2 : 0 ≤ c2)
    (h : c1 ≤ c2 + (z : ℚ)) :
    ((delayMicros c1 : ℕ) : ℚ) / 1000000 ≤ ((delayMicros c2 : ℕ) : ℚ) / 1000000 + (z : ℚ) := by
  have hmul : c1 * 1000 * 1000 ≤ c2 * 1000 * 1000 + ((z * 1000000 : ℤ) : ℚ) := by
    push_cast
    nlinarith [h]
  have hfl : ⌊c1 * 1000 * 1000⌋ ≤ ⌊c2 * 1000 * 1000⌋ + z * 1000000 := by
    calc ⌊c1 * 1000 * 1000⌋ ≤ ⌊c2 * 1000 * 1000 + ((z * 1000000 : ℤ) : ℚ)⌋ :=
        Int.floor_le_floor hmul
      _ = ⌊c2 * 1000 * 1000⌋ + z * 1000000 := Int.floor_add_int _ _
  have hq : ((delayMicros c1 : ℕ) : ℚ) ≤ ((delayMicros c2 : ℕ) : ℚ) + (z : ℚ) * 1000000 := by
    rw [delayMicros_cast c1 h1, delayMicros_cast c2 h2]
    exact_mod_cast hfl
  linarith

/-! ### Ratelimit update projections -/

theorem update_none (s : Ratelimit) (now : ℚ) :
    s.update now none =
      { s with remaining := s.remaining - 1, used := s.used + 1 } := rfl

theorem update_remaining (s : Ratelimit) (now : ℚ) (h : RatelimitHeaders) :
    (s.update now (some h)).remaining = h.remaining := by
  rw [Ratelimit.update]
  by_cases hr : h.remaining ≤ 0 <;> simp [hr]

theorem update_used (s : Ratelimit) (now : ℚ) (h : RatelimitHeaders) :
    (s.update now (some h)).used = h.used := by
  rw [Ratelimit.update]
  by_cases hr : h.remaining ≤ 0 <;> simp [hr]

theorem update_nextReset (s : Ratelimit) (now : ℚ) (h : RatelimitHeaders) :
    (s.update now (some h)).nextReset = now + (h.reset : ℚ) := by
  rw [Ratelimit.update]
  by_cases hr : h.remaining ≤ 0 <;> simp [hr]

theorem update_nextRequest_nonpos (s : Ratelimit) (now : ℚ) (h : RatelimitHeaders)
    (hr : h.remaining ≤ 0) :
    (s.update now (some h)).nextRequest = now + (h.reset : ℚ) := by
  rw [Ratelimit.update]
  simp [hr]

theorem update_nextRequest_pos (s : Ratelimit) (now : ℚ) (h : RatelimitHeaders)
    (hr : 0 < h.remaining) :
    (s.update now (some h)).nextRequest =
      min (now + ((delayMicros (clamp 0 ((h.reset : ℚ) -
          (600 - 600 / (h.remaining + (h.used : ℚ)) * (h.used : ℚ))) 10) : ℕ) : ℚ) / 1000000)
        (now + (h.reset : ℚ)) := by
  rw [Ratelimit.update]
  simp [not_le.mpr hr, Ratelimit.window]

/-- The monotonicity step: two header-present updates whose headers are
consistent (shared reset instant, shared allowance, non-increasing
remaining, time moving forward) produce non-decreasing `next_request`
instants — regardless of the pre-states. -/
theorem update_nextRequest_mono (s s' : Ratelimit) (n1 n2 : ℚ) (h1 h2 : RatelimitHeaders)
    (hn : n1 ≤ n2) (hres : n1 + (h1.reset : ℚ) = n2 + (h2.reset : ℚ))
    (hsum : h1.remaining + (h1.used : ℚ) = h2.remaining + (h2.used : ℚ))
    (hdec : h2.remaining ≤ h1.remaining) :
    (s.update n1 (some h1)).nextRequest ≤ (s'.update n2 (some h2)).nextRequest := by
  by_cases hr2 : h2.remaining ≤ 0
  · rw [update_nextRequest_nonpos s' n2 h2 hr2]
    by_cases hr1 : h1.remaining ≤ 0
    · rw [update_nextRequest_nonpos s n1 h1 hr1]
      exact le_of_eq hres
    · rw [update_nextRequest_pos s n1 h1 (lt_of_not_le hr1)]
      calc min _ (n1 + (h1.reset : ℚ)) ≤ n1 + (h1.reset : ℚ) := min_le_right _ _
        _ = n2 + (h2.reset : ℚ) := hres
  · have hr2' : 0 < h2.remaining := lt_of_not_le hr2
    have hr1' : 0 < h1.remaining := lt_of_lt_of_le hr2' hdec
    rw [update_nextRequest_pos s n1 h1 hr1', update_nextRequest_pos s' n2 h2 hr2']
    set raw1 : ℚ :=
      (h1.reset : ℚ) - (600 - 600 / (h1.remaining + (h1.used : ℚ)) * (h1.used : ℚ)) with hraw1
    set raw2 : ℚ :=
      (h2.reset : ℚ) - (600 - 600 / (h2.remaining + (h2.used : ℚ)) * (h2.used : ℚ)) with hraw2
    -- the time step is an integral number of seconds
    set z : ℤ := (h1.reset : ℤ) - (h2.reset : ℤ) with hz
    have hzq : (z : ℚ) = n2 - n1 := by
      push_cast [hz]
      linarith
    have hz0 : 0 ≤ (z : ℚ) := by rw [hzq]; linarith
    -- raw delays shift by at most the elapsed time
    have hA : (0 : ℚ) < h1.remaining + (h1.used : ℚ) := by
      have : (0 : ℚ) ≤ (h1.used : ℚ) := Nat.cast_nonneg _
      linarith
    have hu : (h1.used : ℚ) ≤ (h2.used : ℚ) := by linarith
    have hdiv : 600 / (h1.remaining + (h1.used : ℚ)) * (h1.used : ℚ) ≤
        600 / (h2.remaining + (h2.used : ℚ)) * (h2.used : ℚ) := by
      rw [← hsum]
      exact mul_le_mul_of_nonneg_left hu (by positivity)
    have hraw : raw1 ≤ raw2 + (z : ℚ) := by
      rw [hraw1, hraw2, hzq]
      linarith
    -- clamped delays shift by at most the elapsed time
    have hclamp : clamp 0 raw1 10 ≤ clamp 0 raw2 10 + (z : ℚ) :=
      le_trans (clamp_mono hraw) (clamp_add_le raw2 (z : ℚ) hz0)
    -- truncated delays shift by at most the elapsed time
    have hD := delayMicros_div_add_int (clamp 0 raw1 10) (clamp 0 raw2 10) z
      (clamp_nonneg raw1) (clamp_nonneg raw2) hclamp
    apply le_min
    · refine le_trans (min_le_left _ _) ?_
      linarith [hD, hzq]
    · exact le_trans (min_le_right _ _) (le_of_eq hres)

theorem foldl_queryFragments (q : List (String × String)) (acc : String) :
    q.foldl (fun acc kv => acc ++ kv.1 ++ "=" ++ kv.2 ++ "&") acc = acc ++ queryString q := by
  induction q generalizing acc with
  | nil => simp [queryString]
  | cons kv rest ih =>
    rw [List.foldl_cons, ih]
    simp [queryString, String.append_assoc]

theorem queryString_ends_amp (q : List (String × String)) (h : q ≠ []) :
    ∃ p, queryString q = p ++ "&" := by
  induction q with
  | nil => exact absurd rfl h
  | cons kv rest ih =>
    cases rest with
    | nil => exact ⟨kv.1 ++ "=" ++ kv.2, by simp [queryString, String.append_assoc]⟩
    | cons kv2 rest2 =>
      obtain ⟨p, hp⟩ := ih (by simp)
      refine ⟨kv.1 ++ "=" ++ kv.2 ++ "&" ++ p, ?_⟩
      have hstep : queryString (kv :: kv2 :: rest2) =
          kv.1 ++ "=" ++ kv.2 ++ "&" ++ queryString (kv2 :: rest2) := rfl
      rw [hstep, hp]
      simp [String.append_assoc]

theorem build_formula (e : EndpointBuilder) (base : String) :
    e.build base =
      (if e.path.data.isEmpty || pathStartsWithSlash e.path then base ++ e.path
        else base ++ "/" ++ e.path) ++ "/" ++
        (if e.withDotJson then ".json" else "") ++
        (if e.query.isEmpty then "" else "?") ++ queryString e.query := by
  obtain ⟨path, query, dj⟩ := e
  simp only [EndpointBuilder.build, foldl_queryFragments]
  by_cases hp : path.data.isEmpty || pathStartsWithSlash path
  · cases query with
    | nil => simp [hp, queryString, String.append_assoc]
    | cons kv rest => simp [hp, queryString, String.append_assoc]
  · cases query with
    | nil => simp [hp, queryString, String.append_assoc]
    | cons kv rest => simp [hp, queryString, String.append_assoc]

/-! ## Claim C6: the endpoint builder -/

/-- C6 counterexample: an empty path yields `base ++ "/.json"`, not the
claimed `base ++ "/.json/"`. -/
theorem claim_C6_counterexample :
    (EndpointBuilder.new "").build "https://www.reddit.com" = "https://www.reddit.com/.json" ∧
    "https://www.reddit.com/.json" ≠ "https://www.reddit.com" ++ "/.json/" := by
  exact ⟨by decide, by decide⟩

/-- C6 (amended): `build(base)` yields base + normalized slash + path + a
trailing slash + (`.json` or nothing) + (`?` + `k=v&` pairs in insertion
order, each pair followed by `&`); hence with `append_dot_json` set the
result ends in `/.json` when there is no query and in `&` when there is one,
and an empty path yields `base ++ "/.json"`. -/
theorem claim_C6_build :
    ∀ (e : EndpointBuilder) (base : String),
      (e.build base =
        (if e.path.data.isEmpty || pathStartsWithSlash e.path then base ++ e.path
          else base ++ "/" ++ e.path) ++ "/" ++
          (if e.withDotJson then ".json" else "") ++
          (if e.query.isEmpty then "" else "?") ++ queryString e.query) ∧
      (e.withDotJson = true → e.query = [] → ∃ p, e.build base = p ++ "/.json") ∧
      (e.query ≠ [] → ∃ p, e.build base = p ++ "&") ∧
      (EndpointBuilder.new "").build base = base ++ "/.json" := by
  intro e base
  refine ⟨build_formula e base, ?_, ?_, ?_⟩
  · intro hdj hq
    refine ⟨if e.path.data.isEmpty || pathStartsWithSlash e.path then base ++ e.path
      else base ++ "/" ++ e.path, ?_⟩
    rw [build_formula e base, hdj, hq]
    have hlit : "/" ++ ".json" = "/.json" := rfl
    simp [queryString, String.append_assoc, hlit]
  · intro hq
    obtain ⟨p, hp⟩ := queryString_ends_amp e.query hq
    refine ⟨(if e.path.data.isEmpty || pathStartsWithSlash e.path then base ++ e.path
      else base ++ "/" ++ e.path) ++ "/" ++
      (if e.withDotJson then ".json" else "") ++ "?" ++ p, ?_⟩
    rw [build_formula e base, hp]
    have hq' : e.query.isEmpty = false := by
      cases h : e.query with
      | nil => exact absurd h hq
      | cons a l => rfl
    simp [hq', String.append_assoc]
  · rw [build_formula]
    have hlit : "/" ++ ".json" = "/.json" := rfl
    simp [EndpointBuilder.new, queryString, String.append_assoc, hlit]

/-- Witness for C6 at concrete endpoints with and without a query. -/
theorem claim_C6_build_witness :
    (∃ p, (EndpointBuilder.mk "api/info" [] true).build "https://oauth.reddit.com" =
      p ++ "/.json") ∧
    (∃ p, (EndpointBuilder.mk "search" [("q", "cats")] true).build "https://oauth.reddit.com" =
      p ++ "&") :=
  ⟨(claim_C6_build (EndpointBuilder.mk "api/info" [] true) "https://oauth.reddit.com").2.1
      rfl rfl,
    (claim_C6_build (EndpointBuilder.mk "search" [("q", "cats")] true)
      "https://oauth.reddit.com").2.2.1 (by simp)⟩

/-! ## Claim C7: fullname validation -/

theorem splitOnceUnderscore_eq_some :
    ∀ (s a b : List Char),
      splitOnceUnderscore s = some (a, b) ↔ s = a ++ '_' :: b ∧ '_' ∉ a := by
  intro s
  induction s with
  | nil =>
    intro a b
    simp only [splitOnceUnderscore]
    constructor
    · intro h; cases h
    · rintro ⟨h, -⟩
      exact absurd h (by simp)
  | cons c rest ih =>
    intro a b
    by_cases hc : c = '_'
    · subst hc
      simp only [splitOnceUnderscore, if_pos rfl]
      constructor
      · intro h
        obtain ⟨ha, hb⟩ := Prod.mk.injEq .. ▸ Option.some.inj h
        subst ha; subst hb
        exact ⟨rfl, by simp⟩
      · rintro ⟨heq, hmem⟩
        cases a with
        | nil => simp at heq; simp [heq]
        | cons x a2 =>
          simp only [List.cons_append, List.cons.injEq] at heq
          exact absurd (heq.1 ▸ List.mem_cons_self x a2) hmem
    · simp only [splitOnceUnderscore, if_neg hc]
      cases hsplit : splitOnceUnderscore rest with
      | none =>
        constructor
        · intro h; cases h
        · rintro ⟨heq, hmem⟩
          cases a with
          | nil =>
            simp only [List.nil_append, List.cons.injEq] at heq
            exact absurd heq.1 hc
          | cons x a2 =>
            simp only [List.cons_append, List.cons.injEq] at heq
            have := (ih a2 b).mpr ⟨heq.2, fun hm => hmem (List.mem_cons_of_mem x hm)⟩
            rw [hsplit] at this
            cases this
      | some ab =>
        obtain ⟨a2, b2⟩ := ab
        have hrest := (ih a2 b2).mp hsplit
        constructor
        · intro h
          obtain ⟨ha, hb⟩ := Prod.mk.injEq .. ▸ Option.some.inj h
          subst ha; subst hb
          refine ⟨by rw [hrest.1]; rfl, ?_⟩
          intro hm
          rcases List.mem_cons.mp hm with h1 | h2
          · exact hc h1.symm
          · exact hrest.2 h2
        · rintro ⟨heq, hmem⟩
          cases a with
          | nil =>
            simp only [List.nil_append, List.cons.injEq] at heq
            exact absurd heq.1 hc
          | cons x a3 =>
            simp only [List.cons_append, List.cons.injEq] at heq
            have := (ih a3 b).mpr ⟨heq.2, fun hm => hmem (List.mem_cons_of_mem x hm)⟩
            rw [hsplit] at this
            obtain ⟨h1, h2⟩ := Prod.mk.injEq .. ▸ Option.some.inj this
            subst h1; subst h2
            rw [heq.1]

/-- C7 counterexample: `"tt_tt"` is accepted by `try_from` although it does
not match the claimed pattern `t[0-9]_[a-z0-9]+` (the second character is
not a digit). -/
theorem claim_C7_counterexample :
    (ThingFullname.tryFrom ('t' :: 't' :: '_' :: 't' :: 't' :: [])).isSome = true ∧
    claimFullnamePattern ('t' :: 't' :: '_' :: 't' :: 't' :: []) = false := by
  exact ⟨by decide, by decide⟩

/-- C7 (amended): `try_from(s)` succeeds exactly when `s` has an underscore,
the prefix before the first underscore is two bytes long, and that prefix
starts with `t` — the failure-side characterization, which is strictly
weaker than the claimed `t[0-9]_[a-z0-9]+` pattern. -/
theorem claim_C7_tryFrom :
    ∀ s : List Char,
      (ThingFullname.tryFrom s).isSome = true ↔
        ∃ kind rest, s = kind ++ '_' :: rest ∧ '_' ∉ kind ∧
          utf8Len kind = 2 ∧ startsWithT kind = true := by
  intro s
  rw [ThingFullname.tryFrom]
  constructor
  · intro h
    have hval : ThingFullname.validate s = true := by
      by_cases hv : ThingFullname.validate s
      · exact hv
      · rw [if_neg hv] at h; cases h
    rw [ThingFullname.validate] at hval
    cases hsplit : splitOnceUnderscore s with
    | none => rw [hsplit] at hval; cases hval
    | some ab =>
      obtain ⟨kind, rest⟩ := ab
      rw [hsplit] at hval
      simp at hval
      obtain ⟨hs, hmem⟩ := (splitOnceUnderscore_eq_some s kind rest).mp hsplit
      exact ⟨kind, rest, hs, hmem, hval.1, hval.2⟩
  · rintro ⟨kind, rest, hs, hmem, hlen, hT⟩
    have hsplit := (splitOnceUnderscore_eq_some s kind rest).mpr ⟨hs, hmem⟩
    have hval : ThingFullname.validate s = true := by
      rw [ThingFullname.validate, hsplit]
      simp [hlen, hT]
    rw [if_pos hval]
    rfl

/-- Witness for C7 at the concrete fullname `"t1_abc"`. -/
theorem claim_C7_tryFrom_witness :
    ∃ kind rest, ('t' :: '1' :: '_' :: 'a' :: 'b' :: 'c' :: []) = kind ++ '_' :: rest ∧
      '_' ∉ kind ∧ utf8Len kind = 2 ∧ startsWithT kind = true :=
  (claim_C7_tryFrom ('t' :: '1' :: '_' :: 'a' :: 'b' :: 'c' :: [])).mp (by decide)

/-! ## Claim C8: the Edited decoder -/

/-- C8 counterexample: the integer-lexical JSON number `123` is a JSON
number, yet decoding it yields a decode error (the defaulted `visit_u64`),
not `EditedAt 123`. -/
theorem claim_C8_counterexample :
    (Edited.deserialize (.int 123)).isOk = false ∧
    Edited.deserialize (.int 123) ≠ .ok (.editedAt 123) := by
  exact ⟨rfl, by simp [Edited.deserialize]⟩

/-- C8 (amended): decoding `edited` yields `NotEdited` for JSON `false` and
`EditedAt n` for every float-delivered JSON number `n` (a literal with a
fraction or exponent, delivered through `visit_f64`); JSON `true`,
integer-lexical JSON numbers (delivered through the defaulted
`visit_u64`/`visit_i64`), and every other JSON shape yield a decode
error. -/
theorem claim_C8_edited_decoder :
    (∀ x : ℚ, Edited.deserialize (.float x) = .ok (.editedAt x)) ∧
    Edited.deserialize (.bool false) = .ok .notEdited ∧
    (Edited.deserialize (.bool true)).isOk = false ∧
    (∀ i : ℤ, (Edited.deserialize (.int i)).isOk = false) ∧
    (∀ j : Json, (Edited.deserialize j).isOk = true →
      j = .bool false ∨ ∃ x, j = .float x) := by
  refine ⟨fun x => rfl, rfl, rfl, fun i => rfl, fun j h => ?_⟩
  cases j with
  | bool b =>
    cases b with
    | false => exact Or.inl rfl
    | true => exact absurd h (by simp [Edited.deserialize, Except.isOk, Except.toBool])
  | float x => exact Or.inr ⟨x, rfl⟩
  | int i => exact absurd h (by simp [Edited.deserialize, Except.isOk, Except.toBool])
  | null => exact absurd h (by simp [Edited.deserialize, Except.isOk, Except.toBool])
  | str s => exact absurd h (by simp [Edited.deserialize, Except.isOk, Except.toBool])
  | arr xs => exact absurd h (by simp [Edited.deserialize, Except.isOk, Except.toBool])
  | obj fs => exact absurd h (by simp [Edited.deserialize, Except.isOk, Except.toBool])

/-- Witness for C8 at the concrete shape `Json.float 5`. -/
theorem claim_C8_edited_decoder_witness :
    Json.float 5 = Json.bool false ∨ ∃ x, Json.float 5 = Json.float x :=
  claim_C8_edited_decoder.2.2.2.2 (Json.float 5) rfl

/-! ## Claim C10: UnauthedClient::get -/

/-- C10 counterexample: a 301 response has a non-success (non-2xx) status,
yet `get` returns it as `Ok` rather than panicking. -/
theorem claim_C10_counterexample :
    UnauthedClient.get { status := 301, retryAfter := none, body := "moved" } =
      .ok { status := 301, retryAfter := none, body := "moved" } ∧
    ¬(200 ≤ 301 ∧ 301 ≤ 299) :=
  ⟨rfl, by omega⟩

/-- C10 (amended): `UnauthedClient::get` reads the body and panics exactly
when the status is a client or server error (400–599), and returns
`Ok(response)` for every other status. -/
theorem claim_C10_get_panics :
    ∀ r : Response,
      (400 ≤ r.status ∧ r.status ≤ 599 → UnauthedClient.get r = .panicked r.status r.body) ∧
      (¬(400 ≤ r.status ∧ r.status ≤ 599) → UnauthedClient.get r = .ok r) := by
  intro r
  constructor <;> intro h
  · rw [UnauthedClient.get, if_pos ((isErrorStatus_iff r).mpr h)]
  · rw [UnauthedClient.get, if_neg]
    simp only [isErrorStatus_iff]
    exact h

/-- Witness for C10 at a 500 and a 200 response. -/
theorem claim_C10_get_panics_witness :
    UnauthedClient.get { status := 500, retryAfter := none, body := "oops" } =
      .panicked 500 "oops" ∧
    UnauthedClient.get { status := 200, retryAfter := none, body := "fine" } =
      .ok { status := 200, retryAfter := none, body := "fine" } :=
  ⟨(claim_C10_get_panics _).1 (by decide), (claim_C10_get_panics _).2 (by decide)⟩

theorem delayMicros_natCast (n : ℕ) : delayMicros (n : ℚ) = n * 1000000 := by
  rw [delayMicros]
  have hc : ((n : ℚ) * 1000 * 1000) = ((n * 1000000 : ℕ) : ℚ) := by push_cast; ring
  rw [hc, Int.floor_natCast, Int.toNat_natCast]

theorem updateSeq_chain_mono :
    ∀ (l : List (ℚ × RatelimitHeaders)) (s : Ratelimit),
      List.Chain' consistentCalls l →
      List.Chain' (fun a b : Ratelimit => a.nextRequest ≤ b.nextRequest)
        (Ratelimit.updateSeq s l) := by
  intro l
  induction l with
  | nil =>
    intro s _
    simp [Ratelimit.updateSeq]
  | cons x xs ih =>
    intro s hl
    cases xs with
    | nil => simp [Ratelimit.updateSeq]
    | cons y ys =>
      obtain ⟨hxy, hrest⟩ := List.chain'_cons.mp hl
      obtain ⟨hn, hres, hsum, hdec⟩ := hxy
      have hrec := ih (s.update x.1 (some x.2)) hrest
      have hseq : Ratelimit.updateSeq (s.update x.1 (some x.2)) (y :: ys) =
          ((s.update x.1 (some x.2)).update y.1 (some y.2)) ::
            Ratelimit.updateSeq ((s.update x.1 (some x.2)).update y.1 (some y.2)) ys := rfl
      show List.Chain' _ ((s.update x.1 (some x.2)) ::
        Ratelimit.updateSeq (s.update x.1 (some x.2)) (y :: ys))
      rw [hseq]
      refine List.chain'_cons.mpr ⟨?_, hseq ▸ hrec⟩
      exact update_nextRequest_mono s (s.update x.1 (some x.2)) x.1 y.1 x.2 y.2
        hn hres hsum (le_of_lt hdec)

/-! ## Claim C9: ratelimiter ordering and bounds -/

/-- C9 counterexample: two successive header-present updates with decreasing
remaining (100 then 99, N = 2 ≤ 100) for which `next_request` strictly
decreases (10 then 0), because the second response reports an inconsistent
(zero) reset.  Monotonicity needs consistency hypotheses. -/
theorem claim_C9_counterexample :
    ((Ratelimit.new 0).update 0 (some ⟨600, 100, 100⟩)).nextRequest = 10 ∧
    (((Ratelimit.new 0).update 0 (some ⟨600, 100, 100⟩)).update 0
        (some ⟨0, 99, 101⟩)).nextRequest = 0 ∧
    ¬ List.Chain' (fun a b : Ratelimit => a.nextRequest ≤ b.nextRequest)
        (Ratelimit.updateSeq (Ratelimit.new 0) [(0, ⟨600, 100, 100⟩), (0, ⟨0, 99, 101⟩)]) := by
  have h1 : ((Ratelimit.new 0).update 0 (some ⟨600, 100, 100⟩)).nextRequest = 10 := by
    rw [update_nextRequest_pos _ _ _ (by norm_num)]
    have hc : clamp 0 (((600 : ℕ) : ℚ) -
        (600 - 600 / ((100 : ℚ) + ((100 : ℕ) : ℚ)) * ((100 : ℕ) : ℚ))) 10 = 10 := by
      rw [clamp]
      norm_num
    rw [hc, show (10 : ℚ) = ((10 : ℕ) : ℚ) by norm_num, delayMicros_natCast]
    rw [min_eq_left (by norm_num)]
    norm_num
  have h2 : (((Ratelimit.new 0).update 0 (some ⟨600, 100, 100⟩)).update 0
      (some ⟨0, 99, 101⟩)).nextRequest = 0 := by
    rw [update_nextRequest_pos _ _ _ (by norm_num)]
    have hc : clamp 0 (((0 : ℕ) : ℚ) -
        (600 - 600 / ((99 : ℚ) + ((101 : ℕ) : ℚ)) * ((101 : ℕ) : ℚ))) 10 = 0 := by
      rw [clamp]
      norm_num
    rw [hc, show (0 : ℚ) = ((0 : ℕ) : ℚ) by norm_num, delayMicros_natCast]
    rw [min_eq_left (by norm_num)]
    norm_num
  refine ⟨h1, h2, ?_⟩
  have hseq : Ratelimit.updateSeq (Ratelimit.new 0) [(0, ⟨600, 100, 100⟩), (0, ⟨0, 99, 101⟩)] =
      [(Ratelimit.new 0).update 0 (some ⟨600, 100, 100⟩),
        ((Ratelimit.new 0).update 0 (some ⟨600, 100, 100⟩)).update 0
          (some ⟨0, 99, 101⟩)] := rfl
  rw [hseq]
  intro hchain
  have := (List.chain'_cons.mp hchain).1
  rw [h1, h2] at this
  norm_num at this

/-- C9 (amended): for every sequence of header-present updates whose headers
are consistent — time non-decreasing, a shared reset instant
(`now + reset` constant), a shared allowance (`remaining + used` constant) —
and with decreasing remaining, `next_request` is monotonically
non-decreasing across the sequence; moreover after any single header-present
update `next_request` never lies past `next_reset`, and when remaining > 0
the delay beyond `now` is at most 10 seconds. -/
theorem claim_C9_ratelimit :
    (∀ (s : Ratelimit) (l : List (ℚ × RatelimitHeaders)),
      List.Chain' consistentCalls l →
      List.Chain' (fun a b : Ratelimit => a.nextRequest ≤ b.nextRequest)
        (Ratelimit.updateSeq s l)) ∧
    (∀ (s : Ratelimit) (now : ℚ) (h : RatelimitHeaders),
      (s.update now (some h)).nextRequest ≤ (s.update now (some h)).nextReset) ∧
    (∀ (s : Ratelimit) (now : ℚ) (h : RatelimitHeaders), 0 < h.remaining →
      (s.update now (some h)).nextRequest ≤ now + 10) := by
  refine ⟨fun s l hl => updateSeq_chain_mono l s hl, ?_, ?_⟩
  · intro s now h
    by_cases hr : h.remaining ≤ 0
    · rw [update_nextRequest_nonpos s now h hr, update_nextReset]
    · rw [update_nextRequest_pos s now h (lt_of_not_le hr), update_nextReset]
      exact min_le_right _ _
  · intro s now h hr
    rw [update_nextRequest_pos s now h hr]
    refine le_trans (min_le_left _ _) ?_
    have hle := delayMicros_div_le _ (clamp_nonneg ((h.reset : ℚ) -
      (600 - 600 / (h.remaining + (h.used : ℚ)) * (h.used : ℚ))))
    have hten := clamp_le_ten ((h.reset : ℚ) -
      (600 - 600 / (h.remaining + (h.used : ℚ)) * (h.used : ℚ)))
    linarith

/-- Witness for C9: a consistent two-call sequence, and the 10-second bound
at a concrete update. -/
theorem claim_C9_ratelimit_witness :
    List.Chain' (fun a b : Ratelimit => a.nextRequest ≤ b.nextRequest)
      (Ratelimit.updateSeq (Ratelimit.new 0) [(0, ⟨600, 100, 100⟩), (1, ⟨599, 99, 101⟩)]) ∧
    ((Ratelimit.new 0).update 0 (some ⟨600, 5, 0⟩)).nextRequest ≤ 0 + 10 :=
  ⟨claim_C9_ratelimit.1 _ _ (by
      refine List.chain'_cons.mpr ⟨?_, List.chain'_singleton _⟩
      exact ⟨by norm_num, by norm_num, by norm_num, by norm_num⟩),
    claim_C9_ratelimit.2.2 _ _ _ (by norm_num)⟩

/-! ## Claim C3: the ratelimiter update rule -/

/-- C3 counterexample: at headers `(reset 521, remaining 6, used 1)` the raw
delay is 47/7 s, whose conversion to a `Duration` truncates to whole
microseconds; `next_request` is `now + 6714285 µs`, not the claimed
`now + 47/7 s`. -/
theorem claim_C3_counterexample :
    ((Ratelimit.new 0).update 0 (some ⟨521, 6, 1⟩)).nextRequest ≠
      min ((0 : ℚ) + clamp 0 (((521 : ℕ) : ℚ) -
          (600 - 600 / ((6 : ℚ) + ((1 : ℕ) : ℚ)) * ((1 : ℕ) : ℚ))) 10)
        ((0 : ℚ) + ((521 : ℕ) : ℚ)) := by
  have hc : clamp 0 (((521 : ℕ) : ℚ) -
      (600 - 600 / ((6 : ℚ) + ((1 : ℕ) : ℚ)) * ((1 : ℕ) : ℚ))) 10 = 47 / 7 := by
    rw [clamp]
    norm_num
  have hfl : ⌊(47 / 7 : ℚ) * 1000 * 1000⌋ = 6714285 := by
    rw [Int.floor_eq_iff]
    constructor <;> norm_num
  have hd : delayMicros (47 / 7 : ℚ) = 6714285 := by
    rw [delayMicros, hfl]
    rfl
  rw [update_nextRequest_pos _ _ _ (by norm_num), hc, hd]
  rw [min_eq_left (by norm_num), min_eq_left (by norm_num)]
  norm_num

/-- C3 (amended): with the header absent, `update` only decrements remaining
and increments used; otherwise it installs the parsed remaining/used, sets
`next_reset = now + reset`, and sets `next_request = next_reset` when
remaining ≤ 0, else
`next_request = min(now + (clamp(reset − (600 − (600/(remaining+used))·used), 0, 10)`
truncated to whole microseconds`), next_reset)`. -/
theorem claim_C3_update :
    ∀ (s : Ratelimit) (now : ℚ) (h : RatelimitHeaders),
      ((s.update now none).remaining = s.remaining - 1 ∧
        (s.update now none).used = s.used + 1 ∧
        (s.update now none).nextRequest = s.nextRequest ∧
        (s.update now none).nextReset = s.nextReset) ∧
      (s.update now (some h)).remaining = h.remaining ∧
      (s.update now (some h)).used = h.used ∧
      (s.update now (some h)).nextReset = now + (h.reset : ℚ) ∧
      (h.remaining ≤ 0 → (s.update now (some h)).nextRequest = now + (h.reset : ℚ)) ∧
      (0 < h.remaining → (s.update now (some h)).nextRequest =
        min (now + ((delayMicros (clamp 0 ((h.reset : ℚ) -
            (600 - 600 / (h.remaining + (h.used : ℚ)) * (h.used : ℚ))) 10) : ℕ) : ℚ) / 1000000)
          (now + (h.reset : ℚ))) := by
  intro s now h
  exact ⟨⟨rfl, rfl, rfl, rfl⟩, update_remaining s now h, update_used s now h,
    update_nextReset s now h, update_nextRequest_nonpos s now h,
    update_nextRequest_pos s now h⟩

/-- Witness for C3 at concrete headers with remaining 0 and remaining 5. -/
theorem claim_C3_update_witness :
    ((Ratelimit.new 0).update 0 (some ⟨600, 0, 3⟩)).nextRequest = 0 + ((600 : ℕ) : ℚ) ∧
    ((Ratelimit.new 0).update 0 (some ⟨600, 5, 0⟩)).nextRequest =
      min ((0 : ℚ) + ((delayMicros (clamp 0 (((600 : ℕ) : ℚ) -
          (600 - 600 / ((5 : ℚ) + ((0 : ℕ) : ℚ)) * ((0 : ℕ) : ℚ))) 10) : ℕ) : ℚ) / 1000000)
        ((0 : ℚ) + ((600 : ℕ) : ℚ)) :=
  ⟨(claim_C3_update (Ratelimit.new 0) 0 ⟨600, 0, 3⟩).2.2.2.2.1 (by norm_num),
    (claim_C3_update (Ratelimit.new 0) 0 ⟨600, 5, 0⟩).2.2.2.2.2 (by norm_num)⟩

/-! ## Claim C1: exponential backoff and retry caps -/

theorem inner_execute_of_500 (r : Response) (h : r.status = 500) :
    ClientInner.inner_execute (.success r) =
      .error (.retryExponential (some 32) (.status r)) := by
  simp [ClientInner.inner_execute, Response.isErrorStatus, h, ClientInner.convert_error]

theorem inner_execute_of_2xx (r : Response) (h2 : 200 ≤ r.status) (h3 : r.status ≤ 299) :
    ClientInner.inner_execute (.success r) = .ok r := by
  have hfalse : r.isErrorStatus = false := by
    simp only [Response.isErrorStatus, Bool.and_eq_false_iff, decide_eq_false_iff_not]
    omega
  simp [ClientInner.inner_execute, hfalse]

theorem inner_execute_of_conn (e : TransportError)
    (h : e.ioKind = some .connectionAborted ∨ e.ioKind = some .connectionReset) :
    ClientInner.inner_execute (.failure e) =
      .error (.retryExponential (some 16) (.transport e)) := by
  rcases h with h | h <;> simp [ClientInner.inner_execute, h]

theorem executeGo_retryExp (M : Nat) :
    ∀ (l : List AttemptResult) (n : Nat) (rest : List AttemptResult),
      (∀ a ∈ l, ∃ err, ClientInner.inner_execute a =
        .error (.retryExponential (some M) err)) →
      n + l.length ≤ M →
      ClientInner.executeGo n (l ++ rest) =
        ((ClientInner.executeGo (n + l.length) rest).1,
          (List.range l.length).map (fun i => backoffSecs (n + i + 1)) ++
            (ClientInner.executeGo (n + l.length) rest).2) := by
  intro l
  induction l with
  | nil =>
    intro n rest _ _
    simp
  | cons a l ih =>
    intro n rest hmem hle
    obtain ⟨err, ha⟩ := hmem a (List.mem_cons_self a l)
    have hlt : ¬ M < n + 1 := by
      simp only [List.length_cons] at hle
      omega
    have hrec := ih (n + 1) rest
      (fun x hx => hmem x (List.mem_cons_of_mem a hx))
      (by simp only [List.length_cons] at hle; omega)
    rw [List.cons_append]
    simp only [ClientInner.executeGo, ha]
    rw [if_neg hlt, hrec]
    have hn : n + 1 + l.length = n + (l.length + 1) := by omega
    rw [hn]
    simp only [List.length_cons, List.range_succ_eq_map, List.map_cons, List.map_map,
      Nat.add_zero, List.cons_append]
    have hfun : ((fun i => backoffSecs (n + i + 1)) ∘ Nat.succ) =
        fun i => backoffSecs (n + 1 + i + 1) :=
      funext fun i => congrArg backoffSecs (by omega)
    rw [hfun]

theorem execute_500_then_2xx (k : Nat) (hk : k ≤ 32) (r5 r2 : Response)
    (h5 : r5.status = 500) (h2a : 200 ≤ r2.status) (h2b : r2.status ≤ 299) :
    ClientInner.execute (List.replicate k (.success r5) ++ [.success r2]) =
      (.ok r2, (List.range k).map fun i => min 60 (2 ^ (i + 1))) := by
  have hmem : ∀ a ∈ List.replicate k (AttemptResult.success r5), ∃ err,
      ClientInner.inner_execute a =
        .error (.retryExponential (some 32) err) := by
    intro a ha
    rw [List.eq_of_mem_replicate ha]
    exact ⟨.status r5, inner_execute_of_500 r5 h5⟩
  have hgo := executeGo_retryExp 32 (List.replicate k (.success r5)) 0 [.success r2] hmem
    (by simp [hk])
  rw [ClientInner.execute, hgo]
  have hstep : ClientInner.executeGo (0 + (List.replicate k
      (AttemptResult.success r5)).length) [.success r2] = (.ok r2, []) := by
    simp only [ClientInner.executeGo, inner_execute_of_2xx r2 h2a h2b]
  rw [hstep]
  simp only [List.length_replicate, List.append_nil]
  congr 1
  apply List.map_congr_left
  intro i hi
  have hi' : i < k := List.mem_range.mp hi
  simp only [backoffSecs, Nat.zero_add]
  rw [Nat.mod_eq_of_lt (Nat.pow_lt_pow_right (by norm_num) (by omega : i + 1 < 64))]

theorem execute_500_exceeds (r5 : Response) (h5 : r5.status = 500) (rest : List AttemptResult) :
    ClientInner.execute (List.replicate 33 (.success r5) ++ rest) =
      (.err (.errorOnly (.status r5)), (List.range 32).map fun i => min 60 (2 ^ (i + 1))) := by
  have hmem : ∀ a ∈ List.replicate 32 (AttemptResult.success r5), ∃ err,
      ClientInner.inner_execute a =
        .error (.retryExponential (some 32) err) := by
    intro a ha
    rw [List.eq_of_mem_replicate ha]
    exact ⟨.status r5, inner_execute_of_500 r5 h5⟩
  have hsplit : List.replicate 33 (AttemptResult.success r5) ++ rest =
      List.replicate 32 (AttemptResult.success r5) ++ (.success r5 :: rest) := by
    rw [List.replicate_succ' 32, List.append_assoc, List.singleton_append]
  have hgo := executeGo_retryExp 32 (List.replicate 32 (.success r5)) 0
    (.success r5 :: rest) hmem (by simp)
  rw [ClientInner.execute, hsplit, hgo]
  have hstep : ClientInner.executeGo (0 + (List.replicate 32
      (AttemptResult.success r5)).length) (.success r5 :: rest) =
      (.err (.errorOnly (.status r5)), []) := by
    simp only [List.length_replicate, ClientInner.executeGo, inner_execute_of_500 r5 h5]
    rw [if_pos (by omega)]
  rw [hstep]
  simp only [List.length_replicate, List.append_nil]
  congr 1

theorem execute_conn_exceeds (e : TransportError)
    (h : e.ioKind = some .connectionAborted ∨ e.ioKind = some .connectionReset)
    (rest : List AttemptResult) :
    ClientInner.execute (List.replicate 17 (.failure e) ++ rest) =
      (.err (.errorOnly (.transport e)),
        (List.range 16).map fun i => min 60 (2 ^ (i + 1))) := by
  have hmem : ∀ a ∈ List.replicate 16 (AttemptResult.failure e), ∃ err,
      ClientInner.inner_execute a =
        .error (.retryExponential (some 16) err) := by
    intro a ha
    rw [List.eq_of_mem_replicate ha]
    exact ⟨.transport e, inner_execute_of_conn e h⟩
  have hsplit : List.replicate 17 (AttemptResult.failure e) ++ rest =
      List.replicate 16 (AttemptResult.failure e) ++ (.failure e :: rest) := by
    rw [List.replicate_succ' 16, List.append_assoc, List.singleton_append]
  have hgo := executeGo_retryExp 16 (List.replicate 16 (.failure e)) 0
    (.failure e :: rest) hmem (by simp)
  rw [ClientInner.execute, hsplit, hgo]
  have hstep : ClientInner.executeGo (0 + (List.replicate 16
      (AttemptResult.failure e)).length) (.failure e :: rest) =
      (.err (.errorOnly (.transport e)), []) := by
    simp only [List.length_replicate, ClientInner.executeGo, inner_execute_of_conn e h]
    rw [if_pos (by omega)]
  rw [hstep]
  simp only [List.length_replicate, List.append_nil]
  congr 1

theorem sum_min_pow (k : Nat) :
    (((List.range k).map fun i => min 60 (2 ^ (i + 1))).sum) =
      ∑ i ∈ Finset.Icc 1 k, min 60 (2 ^ i) := by
  induction k with
  | zero => simp
  | succ k ih =>
    rw [List.range_succ, List.map_append, List.sum_append, ih,
      Finset.sum_Icc_succ_top (by omega)]
    simp

theorem oauth_inner_execute_of_500 (r : Response) (h : r.status = 500) :
    OAuthClient.inner_execute (.success r) =
      .error (.retryExponential (some 32) (.status r)) := by
  simp [OAuthClient.inner_execute, Response.isErrorStatus, h, OAuthClient.convert_error]

theorem oauth_inner_execute_of_2xx (r : Response) (h2 : 200 ≤ r.status) (h3 : r.status ≤ 299) :
    OAuthClient.inner_execute (.success r) = .ok r := by
  have hfalse : r.isErrorStatus = false := by
    simp only [Response.isErrorStatus, Bool.and_eq_false_iff, decide_eq_false_iff_not]
    omega
  simp [OAuthClient.inner_execute, hfalse]

theorem oauth_inner_execute_of_conn (e : TransportError)
    (h : e.ioKind = some .connectionAborted ∨ e.ioKind = some .connectionReset) :
    OAuthClient.inner_execute (.failure e) =
      .error (.retryExponential (some 16) (.transport e)) := by
  rcases h with h | h <;> simp [OAuthClient.inner_execute, h]

theorem oauth_executeGo_retryExp (M : Nat) :
    ∀ (l : List AttemptResult) (n : Nat) (rest : List AttemptResult),
      (∀ a ∈ l, ∃ err, OAuthClient.inner_execute a =
        .error (.retryExponential (some M) err)) →
      n + l.length ≤ M →
      OAuthClient.executeGo n (l ++ rest) =
        ((OAuthClient.executeGo (n + l.length) rest).1,
          (List.range l.length).map (fun i => backoffSecs (n + i + 1)) ++
            (OAuthClient.executeGo (n + l.length) rest).2) := by
  intro l
  induction l with
  | nil =>
    intro n rest _ _
    simp
  | cons a l ih =>
    intro n rest hmem hle
    obtain ⟨err, ha⟩ := hmem a (List.mem_cons_self a l)
    have hlt : ¬ M < n + 1 := by
      simp only [List.length_cons] at hle
      omega
    have hrec := ih (n + 1) rest
      (fun x hx => hmem x (List.mem_cons_of_mem a hx))
      (by simp only [List.length_cons] at hle; omega)
    rw [List.cons_append]
    simp only [OAuthClient.executeGo, ha]
    rw [if_neg hlt, hrec]
    have hn : n + 1 + l.length = n + (l.length + 1) := by omega
    rw [hn]
    simp only [List.length_cons, List.range_succ_eq_map, List.map_cons, List.map_map,
      Nat.add_zero, List.cons_append]
    have hfun : ((fun i => backoffSecs (n + i + 1)) ∘ Nat.succ) =
        fun i => backoffSecs (n + 1 + i + 1) :=
      funext fun i => congrArg backoffSecs (by omega)
    rw [hfun]

theorem oauth_execute_500_then_2xx (k : Nat) (hk : k ≤ 32) (r5 r2 : Response)
    (h5 : r5.status = 500) (h2a : 200 ≤ r2.status) (h2b : r2.status ≤ 299) :
    OAuthClient.execute (List.replicate k (.success r5) ++ [.success r2]) =
      (.ok r2, (List.range k).map fun i => min 60 (2 ^ (i + 1))) := by
  have hmem : ∀ a ∈ List.replicate k (AttemptResult.success r5), ∃ err,
      OAuthClient.inner_execute a =
        .error (.retryExponential (some 32) err) := by
    intro a ha
    rw [List.eq_of_mem_replicate ha]
    exact ⟨.status r5, oauth_inner_execute_of_500 r5 h5⟩
  have hgo := oauth_executeGo_retryExp 32 (List.replicate k (.success r5)) 0 [.success r2]
    hmem (by simp [hk])
  rw [OAuthClient.execute, hgo]
  have hstep : OAuthClient.executeGo (0 + (List.replicate k
      (AttemptResult.success r5)).length) [.success r2] = (.ok r2, []) := by
    simp only [OAuthClient.executeGo, oauth_inner_execute_of_2xx r2 h2a h2b]
  rw [hstep]
  simp only [List.length_replicate, List.append_nil]
  congr 1
  apply List.map_congr_left
  intro i hi
  have hi' : i < k := List.mem_range.mp hi
  simp only [backoffSecs, Nat.zero_add]
  rw [Nat.mod_eq_of_lt (Nat.pow_lt_pow_right (by norm_num) (by omega : i + 1 < 64))]

theorem oauth_execute_500_exceeds (r5 : Response) (h5 : r5.status = 500)
    (rest : List AttemptResult) :
    OAuthClient.execute (List.replicate 33 (.success r5) ++ rest) =
      (.err (.network (.status r5)), (List.range 32).map fun i => min 60 (2 ^ (i + 1))) := by
  have hmem : ∀ a ∈ List.replicate 32 (AttemptResult.success r5), ∃ err,
      OAuthClient.inner_execute a =
        .error (.retryExponential (some 32) err) := by
    intro a ha
    rw [List.eq_of_mem_replicate ha]
    exact ⟨.status r5, oauth_inner_execute_of_500 r5 h5⟩
  have hsplit : List.replicate 33 (AttemptResult.success r5) ++ rest =
      List.replicate 32 (AttemptResult.success r5) ++ (.success r5 :: rest) := by
    rw [List.replicate_succ' 32, List.append_assoc, List.singleton_append]
  have hgo := oauth_executeGo_retryExp 32 (List.replicate 32 (.success r5)) 0
    (.success r5 :: rest) hmem (by simp)
  rw [OAuthClient.execute, hsplit, hgo]
  have hstep : OAuthClient.executeGo (0 + (List.replicate 32
      (AttemptResult.success r5)).length) (.success r5 :: rest) =
      (.err (.network (.status r5)), []) := by
    simp only [List.length_replicate, OAuthClient.executeGo,
      oauth_inner_execute_of_500 r5 h5]
    rw [if_pos (by omega)]
  rw [hstep]
  simp only [List.length_replicate, List.append_nil]
  congr 1

theorem oauth_execute_conn_exceeds (e : TransportError)
    (h : e.ioKind = some .connectionAborted ∨ e.ioKind = some .connectionReset)
    (rest : List AttemptResult) :
    OAuthClient.execute (List.replicate 17 (.failure e) ++ rest) =
      (.err (.network (.transport e)),
        (List.range 16).map fun i => min 60 (2 ^ (i + 1))) := by
  have hmem : ∀ a ∈ List.replicate 16 (AttemptResult.failure e), ∃ err,
      OAuthClient.inner_execute a =
        .error (.retryExponential (some 16) err) := by
    intro a ha
    rw [List.eq_of_mem_replicate ha]
    exact ⟨.transport e, oauth_inner_execute_of_conn e h⟩
  have hsplit : List.replicate 17 (AttemptResult.failure e) ++ rest =
      List.replicate 16 (AttemptResult.failure e) ++ (.failure e :: rest) := by
    rw [List.replicate_succ' 16, List.append_assoc, List.singleton_append]
  have hgo := oauth_executeGo_retryExp 16 (List.replicate 16 (.failure e)) 0
    (.failure e :: rest) hmem (by simp)
  rw [OAuthClient.execute, hsplit, hgo]
  have hstep : OAuthClient.executeGo (0 + (List.replicate 16
      (AttemptResult.failure e)).length) (.failure e :: rest) =
      (.err (.network (.transport e)), []) := by
    simp only [List.length_replicate, OAuthClient.executeGo,
      oauth_inner_execute_of_conn e h]
    rw [if_pos (by omega)]
  rw [hstep]
  simp only [List.length_replicate, List.append_nil]
  congr 1

/-- C1: on both retry executors, a trace of exactly `k ≤ 32` responses with
status 500 followed by a 2xx response yields exactly one success, with the
executor sleeping `min(60, 2^n)` seconds before retry `n` (n = 1..k), so the
sleeps total `Σ min(60, 2^i)` for i = 1..k; and when the retry count exceeds
the cap (32 for 500s, 16 for connection-aborted and connection-reset transport errors) the
executor stops and surfaces the captured last error as a terminal error. -/
theorem claim_C1_retry_backoff :
    ∀ k : Nat, k ≤ 32 →
    ∀ (r5 r2 : Response), r5.status = 500 → 200 ≤ r2.status → r2.status ≤ 299 →
      (ClientInner.execute (List.replicate k (.success r5) ++ [.success r2]) =
          (.ok r2, (List.range k).map fun i => min 60 (2 ^ (i + 1))) ∧
        OAuthClient.execute (List.replicate k (.success r5) ++ [.success r2]) =
          (.ok r2, (List.range k).map fun i => min 60 (2 ^ (i + 1))) ∧
        (((List.range k).map fun i => min 60 (2 ^ (i + 1))).sum =
          ∑ i ∈ Finset.Icc 1 k, min 60 (2 ^ i))) ∧
      (∀ rest, ClientInner.execute (List.replicate 33 (.success r5) ++ rest) =
          (.err (.errorOnly (.status r5)),
            (List.range 32).map fun i => min 60 (2 ^ (i + 1))) ∧
        OAuthClient.execute (List.replicate 33 (.success r5) ++ rest) =
          (.err (.network (.status r5)),
            (List.range 32).map fun i => min 60 (2 ^ (i + 1)))) ∧
      (∀ (e : TransportError) (rest : List AttemptResult),
        e.ioKind = some .connectionAborted ∨ e.ioKind = some .connectionReset →
        ClientInner.execute (List.replicate 17 (.failure e) ++ rest) =
          (.err (.errorOnly (.transport e)),
            (List.range 16).map fun i => min 60 (2 ^ (i + 1))) ∧
        OAuthClient.execute (List.replicate 17 (.failure e) ++ rest) =
          (.err (.network (.transport e)),
            (List.range 16).map fun i => min 60 (2 ^ (i + 1)))) := by
  intro k hk r5 r2 h5 h2a h2b
  refine ⟨⟨execute_500_then_2xx k hk r5 r2 h5 h2a h2b,
      oauth_execute_500_then_2xx k hk r5 r2 h5 h2a h2b, sum_min_pow k⟩,
    fun rest => ⟨execute_500_exceeds r5 h5 rest, oauth_execute_500_exceeds r5 h5 rest⟩,
    fun e rest he => ⟨execute_conn_exceeds e he rest, oauth_execute_conn_exceeds e he rest⟩⟩

/-- Witness for C1 at k = 2 concrete 500s followed by a 200, and at the
concrete capped traces. -/
theorem claim_C1_retry_backoff_witness :
    (ClientInner.execute (List.replicate 2
        (.success { status := 500, retryAfter := none, body := "" }) ++
        [.success { status := 200, retryAfter := none, body := "ok" }]) =
      (.ok { status := 200, retryAfter := none, body := "ok" }, [2, 4])) ∧
    (ClientInner.execute (List.replicate 33
        (.success { status := 500, retryAfter := none, body := "" })) =
      (.err (.errorOnly (.status { status := 500, retryAfter := none, body := "" })),
        (List.range 32).map fun i => min 60 (2 ^ (i + 1)))) := by
  have h := claim_C1_retry_backoff 2 (by norm_num)
    { status := 500, retryAfter := none, body := "" }
    { status := 200, retryAfter := none, body := "ok" } rfl (by norm_num) (by norm_num)
  refine ⟨?_, ?_⟩
  · rw [h.1.1]
    decide
  · have h33 := (h.2.1 []).1
    rw [List.append_nil] at h33
    exact h33

/-! ## Claim C2: the Authed re-login loop -/

/-- C2: if the underlying execution reports Unauthorized once, the re-login
succeeds and installs a fresh token, and the rebuilt request succeeds, the
caller observes exactly one success; a second Unauthorized surfaces
`CredentialsNotSet`. -/
theorem claim_C2_relogin_once :
    ∀ (α : Type) (v : α) (token newToken : String)
      (rest : List (Except ClientInner.ExecuteError α)),
      AuthedClient.executeWithRetries (.ok newToken) token
          (.error .authorizationRequired :: .ok v :: rest) =
        .ok v (AuthedClient.formAuthHeader newToken) ∧
      AuthedClient.executeWithRetries (.ok newToken) token
          (.error .authorizationRequired :: .error .authorizationRequired :: rest) =
        .err .credentialsNotSet (AuthedClient.formAuthHeader newToken) := by
  intro α v token newToken rest
  exact ⟨rfl, rfl⟩

/-! ## Claim C4: 400 handling in the two executors -/

/-- C4 counterexample: the `ClientInner` retry executor (the tier behind
`AuthedClient`) turns a 400 response into `FullNetwork`, not into
`RedditError` carrying the body. -/
theorem claim_C4_counterexample :
    ClientInner.execute [.success { status := 400, retryAfter := none, body := "bad body" }] =
      (.err (.responseAndError { status := 400, retryAfter := none, body := "bad body" }
        (.status { status := 400, retryAfter := none, body := "bad body" })), []) ∧
    (ClientInner.ExecuteError.responseAndError
        { status := 400, retryAfter := none, body := "bad body" }
        (.status { status := 400, retryAfter := none, body := "bad body" })).toRouxError ≠
      .redditError "bad body" := by
  exact ⟨rfl, by decide⟩

/-- C4 (amended): on a 400 response neither executor retries or sleeps; the
`OAuthClient` executor reads the body and returns `RedditError(body)`, while
the `ClientInner` executor returns the response as `ResponseAndError`
(surfaced as `FullNetwork`). -/
theorem claim_C4_bad_request :
    ∀ (r : Response) (rest : List AttemptResult), r.status = 400 →
      OAuthClient.execute (.success r :: rest) = (.err (.redditError r.body), []) ∧
      ClientInner.execute (.success r :: rest) =
        (.err (.responseAndError r (.status r)), []) ∧
      (ClientInner.ExecuteError.responseAndError r (.status r)).toRouxError =
        .fullNetwork r (.status r) := by
  intro r rest h
  have herr : r.isErrorStatus = true := by simp [Response.isErrorStatus, h]
  refine ⟨?_, ?_, rfl⟩
  · simp [OAuthClient.execute, OAuthClient.executeGo, OAuthClient.inner_execute, herr,
      OAuthClient.convert_error, h]
  · simp [ClientInner.execute, ClientInner.executeGo, ClientInner.inner_execute, herr,
      ClientInner.convert_error, h]

/-- Witness for C4 at a concrete 400 response. -/
theorem claim_C4_bad_request_witness :
    OAuthClient.execute [.success { status := 400, retryAfter := none, body := "x" }] =
      (.err (.redditError "x"), []) ∧
    ClientInner.execute [.success { status := 400, retryAfter := none, body := "x" }] =
      (.err (.responseAndError { status := 400, retryAfter := none, body := "x" }
        (.status { status := 400, retryAfter := none, body := "x" })), []) ∧
    (ClientInner.ExecuteError.responseAndError { status := 400, retryAfter := none, body := "x" }
        (.status { status := 400, retryAfter := none, body := "x" })).toRouxError =
      .fullNetwork { status := 400, retryAfter := none, body := "x" }
        (.status { status := 400, retryAfter := none, body := "x" }) :=
  claim_C4_bad_request { status := 400, retryAfter := none, body := "x" } [] rfl

/-! ## Claim C5: token issuance and revocation URLs -/

/-- C5: with a password configured, the token-issuance POST goes to a URL
rooted at `oauth.reddit.com`, and the token-revocation POST goes to the
base-prefixed (malformed) URL — neither is rooted at
`https://www.reddit.com` as claimed. -/
theorem claim_C5_token_urls :
    loginUrl true = "https://oauth.reddit.com/api/v1/access_token/" ∧
    logoutUrl true =
      "https://oauth.reddit.com/https://www.reddit.com/api/v1/revoke_token/.json" ∧
    loginUrl false = "https://www.reddit.com/api/v1/access_token/" ∧
    (∀ t : String, loginUrl true ≠ "https://www.reddit.com" ++ t) ∧
    (∀ t : String, logoutUrl true ≠ "https://www.reddit.com" ++ t) := by
  refine ⟨by decide, by decide, by decide, ?_, ?_⟩
  · intro t h
    rw [show loginUrl true = "https://oauth.reddit.com/api/v1/access_token/" from by decide] at h
    have h2 := congrArg String.data h
    simp [String.data_append] at h2
  · intro t h
    rw [show logoutUrl true =
      "https://oauth.reddit.com/https://www.reddit.com/api/v1/revoke_token/.json" from
        by decide] at h
    have h2 := congrArg String.data h
    simp [String.data_append] at h2

end Roux
